import Mathlib

/-!
Verification development for the estimia recompute-and-aggregate engine.

The source is a TypeScript browser application.  The deterministic core
(rate store, aggregation engine, critical-path duration resolver and
calendar grid builder, all embedded in the results dashboard component,
plus the analyze state machine of the app component) is shallowly
embedded here:

* JS strings are lists of code points (`JsStr`).
* JS numbers are embedded as exact rationals.  Fields of the AI document
  come from JSON and therefore are never NaN, so they are plain `ℚ`;
  values produced by the `Number` conversion of a stored rate string can
  be NaN, so computed amounts live in `JsNum := Option ℚ` where `none`
  models NaN and arithmetic is NaN-propagating, exactly as IEEE addition
  and multiplication behave on NaN.  Week fields are integers, following
  the documented data model (weeks are 1-based integers).
* Records (JS objects used as maps) are association lists in insertion
  order; lookup and functional update mirror property access and spread
  update.
* `toLowerCase` is modelled on the Basic Latin range (the only range the
  fixed role labels and the hand-traced inputs use).
-/

abbrev JsStr := List Nat

/-- Code points of a string literal. -/
def codes (s : String) : JsStr := s.data.map (fun c => c.toNat)

/-- The whitespace class of the JS regex backslash-s escape. -/
def isJsWs (n : Nat) : Bool :=
  decide (n = 9 ∨ n = 10 ∨ n = 11 ∨ n = 12 ∨ n = 13 ∨ n = 32 ∨ n = 160 ∨
    n = 5760 ∨ (8192 ≤ n ∧ n ≤ 8202) ∨ n = 8232 ∨ n = 8233 ∨ n = 8239 ∨
    n = 8287 ∨ n = 12288 ∨ n = 65279)

/-- Lower-casing of one code point, Basic Latin fragment of the JS
string toLowerCase method. -/
def toLowerCode (n : Nat) : Nat := if 65 ≤ n ∧ n ≤ 90 then n + 32 else n

/-- Upper-casing of one code point, Basic Latin fragment. -/
def toUpperCode (n : Nat) : Nat := if 97 ≤ n ∧ n ≤ 122 then n - 32 else n

/-- Replacement of every maximal whitespace run by one underscore, the
effect of the replace call with the global whitespace-run regex in the
sanitizeRole helper.  The flag records whether the previous code point
was inside a (already replaced) whitespace run. -/
def collapseWsAux : Bool → List Nat → List Nat
  | _, [] => []
  | inRun, c :: rest =>
    if isJsWs c then
      if inRun then collapseWsAux true rest
      else 95 :: collapseWsAux true rest
    else c :: collapseWsAux false rest

def collapseWs (s : JsStr) : JsStr := collapseWsAux false s

/-- The sanitizeRole helper of the results dashboard: replace whitespace
runs by underscores, then lower-case. -/
def sanitizeRole (role : JsStr) : JsStr := (collapseWs role).map toLowerCode

/-- The fixed role list of the types module. -/
def FIXED_ROLES : List JsStr :=
  [codes "Product Owner", codes "Back-end Developer",
   codes "Front-end Developer", codes "QA Engineer", codes "UI/UX Designer"]

/-- A JS number: a finite value (exact rational) or NaN (`none`). -/
abbrev JsNum := Option (ℚ)

/-- JS addition: NaN-propagating. -/
def jadd : JsNum → JsNum → JsNum
  | some a, some b => some (a + b)
  | _, _ => none

/-- JS multiplication: NaN-propagating. -/
def jmul : JsNum → JsNum → JsNum
  | some a, some b => some (a * b)
  | _, _ => none

/-- Left-to-right sum of a list of JS numbers starting from 0, as the
reduce and accumulator loops of the dashboard compute it. -/
def jsum (l : List JsNum) : JsNum := l.foldl jadd (some 0)

def isDigit (n : Nat) : Bool := decide (48 ≤ n ∧ n ≤ 57)

/-- Value of a digit string (most significant first). -/
def parseDigits (s : JsStr) : Nat := s.foldl (fun a n => a * 10 + (n - 48)) 0

/-- The rate-edit acceptance regex of handleRateChange: an anchored
pattern of digits, an optional dot, and digits, all parts optional. -/
def ratePattern (s : JsStr) : Bool :=
  match s.dropWhile isDigit with
  | [] => true
  | 46 :: r2 => r2.all isDigit
  | _ => false

/-- Value of an optionally signed decimal literal split into integer and
fraction digit parts; NaN when both parts are empty. -/
def decLitValue (sgn : ℚ) (ip fp : JsStr) : JsNum :=
  if ip = [] ∧ fp = [] then none
  else some (sgn * ((parseDigits ip : ℚ) + (parseDigits fp : ℚ) / 10 ^ fp.length))

/-- Unsigned part of the JS Number conversion of a string: digits,
optionally a dot and further digits; anything else is NaN. -/
def jsNumberUnsigned (sgn : ℚ) (r : JsStr) : JsNum :=
  match r.dropWhile isDigit with
  | [] => decLitValue sgn (r.takeWhile isDigit) []
  | 46 :: r2 =>
    if r2.all isDigit then decLitValue sgn (r.takeWhile isDigit) r2 else none
  | _ => none

/-- Model of the JS Number conversion on strings, covering the empty or
all-whitespace string (value 0) and optionally signed decimal literals;
every other string is NaN.  This grammar covers every string the rate
store can hold, since the edit handler only accepts digits-dot-digits
strings and the empty string. -/
def jsNumber (s : JsStr) : JsNum :=
  match ((s.dropWhile isJsWs).reverse.dropWhile isJsWs).reverse with
  | [] => some 0
  | 43 :: r => jsNumberUnsigned 1 r
  | 45 :: r => jsNumberUnsigned (-1) r
  | r => jsNumberUnsigned 1 r

/-- A value held by the editable rate record: a number (from
initialization) or a raw input string (from an edit). -/
inductive RateVal
  | num (q : ℚ)
  | str (s : JsStr)
  deriving DecidableEq

/-- The editable roleRates record: normalized role key to value, in
insertion order. -/
abbrev RateStore := List (JsStr × RateVal)

def lookupRate : RateStore → JsStr → Option RateVal
  | [], _ => none
  | (k, v) :: rest, key => if k = key then some v else lookupRate rest key

/-- Spread update of the record: replace the binding when the key is
present, append it otherwise. -/
def storeSet : RateStore → JsStr → RateVal → RateStore
  | [], key, v => [(key, v)]
  | (k, w) :: rest, key, v =>
    if k = key then (k, v) :: rest else (k, w) :: storeSet rest key v

/-- JS Number conversion of a stored value. -/
def rvNumber : RateVal → JsNum
  | .num q => some q
  | .str s => jsNumber s

/-- JS falsiness of an optional stored value (undefined, 0 and the empty
string are falsy; during initialization only numbers are stored). -/
def rateFalsy : Option RateVal → Bool
  | none => true
  | some (.num q) => decide (q = 0)
  | some (.str s) => s.isEmpty

/-- A stored value the edit handler could have produced (numbers come
from initialization and are always allowed). -/
def rateValAccepted : RateVal → Bool
  | .num _ => true
  | .str s => s.isEmpty || ratePattern s

def storeValid (store : RateStore) : Bool :=
  store.all (fun e => rateValAccepted e.2)

/-- The rate edit handler of the results dashboard: store the raw input
under the sanitized role key when it is empty or matches the decimal
pattern, otherwise do nothing. -/
def handleRateChange (store : RateStore) (role : JsStr) (newRate : JsStr) :
    RateStore :=
  if newRate = [] ∨ ratePattern newRate = true then
    storeSet store (sanitizeRole role) (RateVal.str newRate)
  else store

inductive Complexity | low | medium | high
  deriving DecidableEq

inductive Impact | high | medium | low
  deriving DecidableEq

structure PhaseTask where
  name : JsStr
  hours : ℚ
  cost : ℚ
  assignedRole : JsStr
  hourlyRate : ℚ
  deriving DecidableEq

structure PhaseEstimate where
  name : JsStr
  description : JsStr
  estimatedHours : ℚ
  estimatedCost : ℚ
  complexity : Complexity
  assignedRole : JsStr
  tasks : List PhaseTask
  deriving DecidableEq

structure Risk where
  risk : JsStr
  mitigation : JsStr
  impact : Impact
  deriving DecidableEq

structure RoleRate where
  role : JsStr
  rate : ℚ
  currency : JsStr
  deriving DecidableEq

structure CostBreakdownItem where
  role : JsStr
  totalHours : ℚ
  hourlyRate : ℚ
  subtotalCost : ℚ
  currency : JsStr
  deriving DecidableEq

structure RoadmapItem where
  phaseName : JsStr
  startWeek : ℤ
  endWeek : ℤ
  milestone : JsStr
  deriving DecidableEq

structure CostRange where
  min : ℚ
  max : ℚ
  currency : JsStr
  deriving DecidableEq

structure WeekRange where
  min : ℤ
  max : ℤ
  deriving DecidableEq

structure HoursRange where
  min : ℚ
  max : ℚ
  deriving DecidableEq

/-- The AI estimation document of the types module. -/
structure EstimationResult where
  projectName : JsStr
  requesterName : JsStr
  requestDate : JsStr
  executiveSummary : JsStr
  totalEstimatedCost : CostRange
  totalEstimatedDurationWeeks : WeekRange
  totalEstimatedHours : HoursRange
  hourlyRates : List RoleRate
  costBreakdown : List CostBreakdownItem
  roadmap : List RoadmapItem
  recommendedTechStack : List JsStr
  phases : List PhaseEstimate
  risks : List Risk
  teamComposition : List JsStr
  deriving DecidableEq

/-- Effective hourly rate of a task: the stored value converted by
Number when the key is bound and not the empty string, 0 for the empty
string, the task-supplied rate when the key is unbound.  This is the
rate selection expression of both the dashboard aggregation and the
phase card. -/
def effectiveRate (store : RateStore) (t : PhaseTask) : JsNum :=
  match lookupRate store (sanitizeRole t.assignedRole) with
  | none => some t.hourlyRate
  | some v => if v = RateVal.str [] then some 0 else rvNumber v

/-- Recomputed cost of one task: hours times effective rate. -/
def taskCost (store : RateStore) (t : PhaseTask) : JsNum :=
  jmul (some t.hours) (effectiveRate store t)

/-- One bucket of the per-role breakdown record. -/
structure BMEntry where
  hours : ℚ
  cost : JsNum
  role : JsStr
  deriving DecidableEq

/-- Accumulator of the aggregation loop: the per-role breakdown record
(in insertion order), the grand total cost and the grand total hours. -/
structure AggState where
  breakdownMap : List (JsStr × BMEntry)
  totalCost : JsNum
  totalHours : ℚ
  deriving DecidableEq

/-- Create-if-absent followed by increments on the breakdown record,
exactly as the aggregation loop body performs them. -/
def bmAdd : List (JsStr × BMEntry) → JsStr → JsStr → ℚ → JsNum →
    List (JsStr × BMEntry)
  | [], key, role, hq, c => [(key, ⟨0 + hq, jadd (some 0) c, role⟩)]
  | (k, e) :: rest, key, role, hq, c =>
    if k = key then (k, ⟨e.hours + hq, jadd e.cost c, e.role⟩) :: rest
    else (k, e) :: bmAdd rest key role hq c

/-- Body of the per-task aggregation loop: update the breakdown bucket,
the grand totals and the running phase cost. -/
def aggTask (store : RateStore) (acc : AggState × JsNum) (t : PhaseTask) :
    AggState × JsNum :=
  ({ breakdownMap :=
       bmAdd acc.1.breakdownMap (sanitizeRole t.assignedRole) t.assignedRole
         t.hours (taskCost store t),
     totalCost := jadd acc.1.totalCost (taskCost store t),
     totalHours := acc.1.totalHours + t.hours },
   jadd acc.2 (taskCost store t))

/-- A phase as re-emitted by the aggregation, with the recomputed cost
(which can be NaN) in place of the advisory one. -/
structure ProcPhase where
  name : JsStr
  description : JsStr
  estimatedHours : ℚ
  estimatedCost : JsNum
  complexity : Complexity
  assignedRole : JsStr
  tasks : List PhaseTask
  deriving DecidableEq

/-- Process one phase: fold the task loop over its tasks with a fresh
zero phase cost, and re-emit the phase with the recomputed cost. -/
def aggPhase (store : RateStore) (st : AggState) (ph : PhaseEstimate) :
    AggState × ProcPhase :=
  ((ph.tasks.foldl (aggTask store) (st, some 0)).1,
   { name := ph.name, description := ph.description,
     estimatedHours := ph.estimatedHours,
     estimatedCost := (ph.tasks.foldl (aggTask store) (st, some 0)).2,
     complexity := ph.complexity, assignedRole := ph.assignedRole,
     tasks := ph.tasks })

/-- The phase map of the aggregation, threading the shared accumulator
left to right. -/
def aggPhases (store : RateStore) : AggState → List PhaseEstimate →
    AggState × List ProcPhase
  | st, [] => (st, [])
  | st, ph :: rest =>
    let r := aggPhase store st ph
    let r2 := aggPhases store r.1 rest
    (r2.1, r.2 :: r2.2)

def initAgg : AggState := ⟨[], some 0, 0⟩

/-- The whole useMemo aggregation of the results dashboard. -/
def aggregate (store : RateStore) (doc : EstimationResult) :
    AggState × List ProcPhase :=
  aggPhases store initAgg doc.phases

def phasesWithDynamicCost (store : RateStore) (doc : EstimationResult) :
    List ProcPhase :=
  (aggregate store doc).2

def totalCalculatedCost (store : RateStore) (doc : EstimationResult) : JsNum :=
  (aggregate store doc).1.totalCost

def totalCalculatedHours (store : RateStore) (doc : EstimationResult) : ℚ :=
  (aggregate store doc).1.totalHours

/-- One row of the per-role breakdown list. -/
structure RoleAgg where
  role : JsStr
  totalHours : ℚ
  subtotalCost : JsNum
  hourlyRate : ℚ
  deriving DecidableEq

/-- The displayed rate of a breakdown row: Number of the stored value,
with NaN and 0 both displayed as 0 (the or-zero guard of the source). -/
def breakdownRate (store : RateStore) (role : JsStr) : ℚ :=
  match lookupRate store (sanitizeRole role) with
  | none => 0
  | some v =>
    match rvNumber v with
    | none => 0
    | some q => if q = 0 then 0 else q

/-- The calculatedBreakdown list: the breakdown record values in order,
each with the re-read store rate. -/
def calculatedBreakdown (store : RateStore) (doc : EstimationResult) :
    List RoleAgg :=
  (aggregate store doc).1.breakdownMap.map (fun e =>
    { role := e.2.role, totalHours := e.2.hours, subtotalCost := e.2.cost,
      hourlyRate := breakdownRate store e.2.role })

/-- Costs column of a breakdown record. -/
def bmCosts (bm : List (JsStr × BMEntry)) : List JsNum :=
  bm.map (fun e => e.2.cost)

/-- The calculatedWeeks value: the largest roadmap end week when the
roadmap is non-empty, otherwise the ceiling of total hours over 24. -/
def calculatedWeeks (store : RateStore) (doc : EstimationResult) : ℤ :=
  match doc.roadmap with
  | [] => ⌈totalCalculatedHours store doc / 24⌉
  | r :: rest => (rest.map RoadmapItem.endWeek).foldl max r.endWeek

/-- The defensive maximum duration driving the calendar grid. -/
def maxDuration (store : RateStore) (doc : EstimationResult) : ℤ :=
  max (max doc.totalEstimatedDurationWeeks.max (calculatedWeeks store doc))
    (match doc.roadmap with
     | [] => 0
     | r :: rest => (rest.map RoadmapItem.endWeek).foldl max r.endWeek)

/-- Clamped bar start of a roadmap row: at least week 1. -/
def safeStart (r : RoadmapItem) : ℤ := max 1 r.startWeek

/-- Clamped bar end of a roadmap row: at least the clamped start. -/
def safeEnd (r : RoadmapItem) : ℤ := max (safeStart r) r.endWeek

/-- State of the timeline grouping loop: emitted groups, current month
label, current week list. -/
abbrev TGState := List (JsStr × List ℤ) × JsStr × List ℤ

/-- Body of the timeline grouping loop.  The label function abstracts
the month-year formatting of the date obtained by adding a number of
days to the anchor date. -/
def tgStep (label : ℤ → JsStr) (anchor : ℤ) (st : TGState) (w : ℤ) : TGState :=
  if label (anchor + (w - 1) * 7) ≠ st.2.1 then
    (if st.2.2 = [] then st.1 else st.1 ++ [(st.2.1, st.2.2)],
     label (anchor + (w - 1) * 7), [w])
  else (st.1, st.2.1, st.2.2 ++ [w])

/-- Final flush of the grouping loop. -/
def closeTG (st : TGState) : List (JsStr × List ℤ) :=
  if st.2.2 = [] then st.1 else st.1 ++ [(st.2.1, st.2.2)]

/-- The project weeks 1..n the loop iterates over. -/
def weekSeq (n : ℤ) : List ℤ := (List.range n.toNat).map (fun i => (i : ℤ) + 1)

/-- The timelineGroups useMemo of the results dashboard, with the anchor
date (first day of the next month at render time) and the locale month
formatting abstracted as parameters. -/
def timelineGroups (label : ℤ → JsStr) (anchor : ℤ) (maxDur : ℤ) :
    List (JsStr × List ℤ) :=
  closeTG ((weekSeq maxDur).foldl (tgStep label anchor) ([], [], []))

/-- Labeled flattening of a group list, pairing every week index with
the label of its group. -/
def flatTG (gs : List (JsStr × List ℤ)) : List (JsStr × ℤ) :=
  gs.flatMap (fun g => g.2.map (fun w => (g.1, w)))

inductive AppState | input | analyzing | result | error
  deriving DecidableEq

/-- The three throw sites of the analyze service. -/
inductive ErrorKind | apiKeyMissing | emptyResponse | parseFailure
  deriving DecidableEq

inductive AnalyzeOutcome
  | ok (r : EstimationResult)
  | err (e : ErrorKind)
  deriving DecidableEq

/-- The app component state: current screen, stored result, error. -/
structure AppModel where
  appState : AppState
  result : Option EstimationResult
  errorMsg : Option ErrorKind
  deriving DecidableEq

/-- The analyzePRD service call: fails without an API key, on a missing
or empty response text, and on an unparseable response; on success the
parsed document is returned with the requester name and date stamped
in.  The network response and the JSON parser are abstracted as
parameters. -/
def analyzePRD (hasApiKey : Bool) (responseText : Option JsStr)
    (parse : JsStr → Option EstimationResult) (rn rd : JsStr) :
    AnalyzeOutcome :=
  if ¬hasApiKey then .err .apiKeyMissing
  else
    match responseText with
    | none => .err .emptyResponse
    | some t =>
      if t = [] then .err .emptyResponse
      else
        match parse t with
        | none => .err .parseFailure
        | some d => .ok { d with requesterName := rn, requestDate := rd }

/-- The handleAnalyze transition of the app component, given the settled
outcome of the service call: success installs the new result, failure
records the error and keeps the stored result. -/
def handleAnalyze (m : AppModel) (outcome : AnalyzeOutcome) : AppModel :=
  match outcome with
  | .ok d => { appState := .result, result := some d, errorMsg := none }
  | .err e => { appState := .error, result := m.result, errorMsg := some e }

/-- Cost-breakdown pass of the rate initialization effect. -/
def initStepCB (st : RateStore) (i : CostBreakdownItem) : RateStore :=
  storeSet st (sanitizeRole i.role) (RateVal.num i.hourlyRate)

/-- Task backfill step of the rate initialization effect: the source
guards with JS falsiness of the current entry. -/
def initStepTask (st : RateStore) (t : PhaseTask) : RateStore :=
  if rateFalsy (lookupRate st (sanitizeRole t.assignedRole)) then
    storeSet st (sanitizeRole t.assignedRole) (RateVal.num t.hourlyRate)
  else st

def initStepPhase (st : RateStore) (ph : PhaseEstimate) : RateStore :=
  ph.tasks.foldl initStepTask st

/-- The once-per-document rate initialization effect of the results
dashboard. -/
def initialRates (doc : EstimationResult) : RateStore :=
  doc.phases.foldl initStepPhase (doc.costBreakdown.foldl initStepCB [])

/-- Task backfill step as the claim words it: a task contributes only
when its normalized role key is not already present. -/
def initStepTaskClaimed (st : RateStore) (t : PhaseTask) : RateStore :=
  if lookupRate st (sanitizeRole t.assignedRole) = none then
    storeSet st (sanitizeRole t.assignedRole) (RateVal.num t.hourlyRate)
  else st

def initStepPhaseClaimed (st : RateStore) (ph : PhaseEstimate) : RateStore :=
  ph.tasks.foldl initStepTaskClaimed st

/-- Rate initialization as the claim describes it, for comparison with
the source behaviour. -/
def initialRatesClaimed (doc : EstimationResult) : RateStore :=
  doc.phases.foldl initStepPhaseClaimed (doc.costBreakdown.foldl initStepCB [])

/-- A store whose every entry survives the falsiness guard. -/
def StoreNonFalsy (st : RateStore) : Prop :=
  ∀ k v, lookupRate st k = some v → rateFalsy (some v) = false

/-- An all-empty document, base for the concrete fixtures. -/
def docBase : EstimationResult :=
  { projectName := [], requesterName := [], requestDate := [],
    executiveSummary := [],
    totalEstimatedCost := { min := 0, max := 0, currency := [] },
    totalEstimatedDurationWeeks := { min := 0, max := 0 },
    totalEstimatedHours := { min := 0, max := 0 },
    hourlyRates := [], costBreakdown := [], roadmap := [],
    recommendedTechStack := [], phases := [], risks := [],
    teamComposition := [] }

/-- A task of 10 hours with AI rate 5 on role a. -/
def taskA : PhaseTask :=
  { name := [], hours := 10, cost := 0, assignedRole := [97], hourlyRate := 5 }

/-- One phase, one two-hour task on role a with AI rate 5. -/
def docC10 : EstimationResult :=
  { docBase with phases :=
      [ { name := [], description := [], estimatedHours := 2,
          estimatedCost := 0, complexity := .low, assignedRole := [97],
          tasks := [ { name := [], hours := 2, cost := 0,
                       assignedRole := [97], hourlyRate := 5 } ] } ] }

/-- A breakdown entry of rate 0 for role a together with a task on role
a carrying AI rate 5: the falsiness guard lets the task overwrite the
zero entry. -/
def docZeroRate : EstimationResult :=
  { docBase with
    costBreakdown :=
      [ { role := [97], totalHours := 1, hourlyRate := 0, subtotalCost := 0,
          currency := [] } ],
    phases :=
      [ { name := [], description := [], estimatedHours := 1,
          estimatedCost := 0, complexity := .low, assignedRole := [97],
          tasks := [ { name := [], hours := 1, cost := 0,
                       assignedRole := [97], hourlyRate := 5 } ] } ] }

/-- Non-zero rates everywhere: breakdown rate 7 on role a, task rate 3
on role b. -/
def docNonZero : EstimationResult :=
  { docBase with
    costBreakdown :=
      [ { role := [97], totalHours := 1, hourlyRate := 7, subtotalCost := 7,
          currency := [] } ],
    phases :=
      [ { name := [], description := [], estimatedHours := 1,
          estimatedCost := 0, complexity := .low, assignedRole := [98],
          tasks := [ { name := [], hours := 1, cost := 0,
                       assignedRole := [98], hourlyRate := 3 } ] } ] }

/-- A roadmap of four intervals with largest end week 8, as in the
parallel-phases scenario of the specification. -/
def docRoad : EstimationResult :=
  { docBase with roadmap :=
      [ { phaseName := [], startWeek := 1, endWeek := 2, milestone := [] },
        { phaseName := [], startWeek := 3, endWeek := 6, milestone := [] },
        { phaseName := [], startWeek := 3, endWeek := 6, milestone := [] },
        { phaseName := [], startWeek := 7, endWeek := 8, milestone := [] } ] }

/-- No roadmap, 30 task hours in one phase. -/
def docNoRoadmap : EstimationResult :=
  { docBase with phases :=
      [ { name := [], description := [], estimatedHours := 30,
          estimatedCost := 0, complexity := .low, assignedRole := [97],
          tasks := [ { name := [], hours := 30, cost := 0,
                       assignedRole := [97], hourlyRate := 5 } ] } ] }

/-- An app model currently showing a stored result. -/
def appWithResult : AppModel :=
  { appState := .result, result := some docC10, errorMsg := none }

/-- The scenario interval with start week 0. -/
def roadEarly : RoadmapItem :=
  { phaseName := [], startWeek := 0, endWeek := 5, milestone := [] }

/-- The scenario interval with end week 2 before start week 5. -/
def roadBack : RoadmapItem :=
  { phaseName := [], startWeek := 5, endWeek := 2, milestone := [] }

/-- The single breakdown row the aggregation computes for docC10 under
the empty store. -/
def rowC10 : RoleAgg :=
  { role := [97], totalHours := 2, subtotalCost := some 10, hourlyRate := 0 }

theorem jadd_zero_left (x : JsNum) : jadd (some 0) x = x := by
  cases x <;> simp [jadd]

theorem jadd_zero_right (x : JsNum) : jadd x (some 0) = x := by
  cases x <;> simp [jadd]

theorem jadd_assoc (a b c : JsNum) : jadd (jadd a b) c = jadd a (jadd b c) := by
  cases a <;> cases b <;> cases c <;> simp [jadd, add_assoc]

theorem jadd_comm (a b : JsNum) : jadd a b = jadd b a := by
  cases a <;> cases b <;> simp [jadd, add_comm]

theorem foldl_jadd_eq (l : List JsNum) : ∀ a, l.foldl jadd a = jadd a (jsum l) := by
  induction l with
  | nil => intro a; simp [jsum, jadd_zero_right]
  | cons x l ih =>
    intro a
    have h1 : jsum (x :: l) = jadd x (jsum l) := by
      simp only [jsum, List.foldl_cons]
      rw [ih, jadd_zero_left]
      rfl
    rw [List.foldl_cons, ih, h1, jadd_assoc]

theorem jsum_cons (x : JsNum) (l : List JsNum) :
    jsum (x :: l) = jadd x (jsum l) := by
  simp only [jsum, List.foldl_cons]
  rw [foldl_jadd_eq, jadd_zero_left]
  rfl

theorem jsum_bmAdd (bm : List (JsStr × BMEntry)) (key role : JsStr) (hq : ℚ)
    (c : JsNum) :
    jsum (bmCosts (bmAdd bm key role hq c)) = jadd (jsum (bmCosts bm)) c := by
  induction bm with
  | nil =>
    simp [bmAdd, bmCosts, jsum_cons, jsum, jadd_zero_left, jadd_zero_right]
  | cons e rest ih =>
    obtain ⟨k, ent⟩ := e
    by_cases hk : k = key
    · subst hk
      rw [show bmAdd ((k, ent) :: rest) k role hq c
            = (k, ⟨ent.hours + hq, jadd ent.cost c, ent.role⟩) :: rest from by
          simp [bmAdd]]
      simp only [bmCosts, List.map_cons, jsum_cons]
      rw [jadd_assoc, jadd_assoc, jadd_comm c]
    · rw [show bmAdd ((k, ent) :: rest) key role hq c
            = (k, ent) :: bmAdd rest key role hq c from by simp [bmAdd, hk]]
      simp only [bmCosts, List.map_cons, jsum_cons]
      rw [show ((bmAdd rest key role hq c).map fun e => e.2.cost)
            = bmCosts (bmAdd rest key role hq c) from rfl, ih, jadd_assoc]
      rfl

theorem tasks_snd (store : RateStore) (ts : List PhaseTask) :
    ∀ acc : AggState × JsNum,
    (ts.foldl (aggTask store) acc).2
      = jadd acc.2 (jsum (ts.map (taskCost store))) := by
  induction ts with
  | nil => intro acc; simp [jsum, jadd_zero_right]
  | cons t ts ih =>
    intro acc
    rw [List.map_cons, List.foldl_cons, ih, jsum_cons]
    rw [show (aggTask store acc t).2 = jadd acc.2 (taskCost store t) from rfl]
    rw [jadd_assoc]

theorem tasks_totalCost (store : RateStore) (ts : List PhaseTask) :
    ∀ acc : AggState × JsNum,
    (ts.foldl (aggTask store) acc).1.totalCost
      = jadd acc.1.totalCost (jsum (ts.map (taskCost store))) := by
  induction ts with
  | nil => intro acc; simp [jsum, jadd_zero_right]
  | cons t ts ih =>
    intro acc
    rw [List.map_cons, List.foldl_cons, ih, jsum_cons]
    rw [show (aggTask store acc t).1.totalCost
          = jadd acc.1.totalCost (taskCost store t) from rfl]
    rw [jadd_assoc]

theorem tasks_totalHours (store : RateStore) (ts : List PhaseTask) :
    ∀ acc : AggState × JsNum,
    (ts.foldl (aggTask store) acc).1.totalHours
      = acc.1.totalHours + (ts.map PhaseTask.hours).sum := by
  induction ts with
  | nil => intro acc; simp
  | cons t ts ih =>
    intro acc
    rw [List.map_cons, List.foldl_cons, ih, List.sum_cons]
    rw [show (aggTask store acc t).1.totalHours
          = acc.1.totalHours + t.hours from rfl]
    rw [add_assoc]

theorem tasks_bm (store : RateStore) (ts : List PhaseTask) :
    ∀ acc : AggState × JsNum,
    jsum (bmCosts (ts.foldl (aggTask store) acc).1.breakdownMap)
      = jadd (jsum (bmCosts acc.1.breakdownMap))
          (jsum (ts.map (taskCost store))) := by
  induction ts with
  | nil => intro acc; simp [jsum, jadd_zero_right]
  | cons t ts ih =>
    intro acc
    rw [List.map_cons, List.foldl_cons, ih, jsum_cons]
    rw [show (aggTask store acc t).1.breakdownMap
          = bmAdd acc.1.breakdownMap (sanitizeRole t.assignedRole)
              t.assignedRole t.hours (taskCost store t) from rfl]
    rw [jsum_bmAdd, jadd_assoc]

theorem phases_costs (store : RateStore) (phs : List PhaseEstimate) :
    ∀ st, (aggPhases store st phs).2.map ProcPhase.estimatedCost
      = phs.map (fun ph => jsum (ph.tasks.map (taskCost store))) := by
  induction phs with
  | nil => intro st; simp [aggPhases]
  | cons ph phs ih =>
    intro st
    simp only [aggPhases, List.map_cons]
    rw [ih]
    congr 1
    rw [show (aggPhase store st ph).2.estimatedCost
          = (ph.tasks.foldl (aggTask store) (st, some 0)).2 from rfl]
    rw [tasks_snd store ph.tasks (st, some 0)]
    exact jadd_zero_left _

theorem phases_totalCost (store : RateStore) (phs : List PhaseEstimate) :
    ∀ st, (aggPhases store st phs).1.totalCost
      = jadd st.totalCost
          (jsum (phs.map (fun ph => jsum (ph.tasks.map (taskCost store))))) := by
  induction phs with
  | nil => intro st; simp [aggPhases, jsum, jadd_zero_right]
  | cons ph phs ih =>
    intro st
    simp only [aggPhases]
    rw [ih, List.map_cons, jsum_cons, ← jadd_assoc]
    congr 1
    rw [show (aggPhase store st ph).1
          = (ph.tasks.foldl (aggTask store) (st, some 0)).1 from rfl]
    rw [tasks_totalCost store ph.tasks (st, some 0)]

theorem phases_totalHours (store : RateStore) (phs : List PhaseEstimate) :
    ∀ st, (aggPhases store st phs).1.totalHours
      = st.totalHours
          + (phs.map (fun ph => (ph.tasks.map PhaseTask.hours).sum)).sum := by
  induction phs with
  | nil => intro st; simp [aggPhases]
  | cons ph phs ih =>
    intro st
    simp only [aggPhases]
    rw [ih, List.map_cons, List.sum_cons, ← add_assoc]
    congr 1
    rw [show (aggPhase store st ph).1
          = (ph.tasks.foldl (aggTask store) (st, some 0)).1 from rfl]
    rw [tasks_totalHours store ph.tasks (st, some 0)]

theorem phases_bm (store : RateStore) (phs : List PhaseEstimate) :
    ∀ st, jsum (bmCosts (aggPhases store st phs).1.breakdownMap)
      = jadd (jsum (bmCosts st.breakdownMap))
          (jsum (phs.map (fun ph => jsum (ph.tasks.map (taskCost store))))) := by
  induction phs with
  | nil => intro st; simp [aggPhases, jsum, jadd_zero_right]
  | cons ph phs ih =>
    intro st
    simp only [aggPhases]
    rw [ih, List.map_cons, jsum_cons, ← jadd_assoc]
    congr 1
    rw [show (aggPhase store st ph).1
          = (ph.tasks.foldl (aggTask store) (st, some 0)).1 from rfl]
    rw [tasks_bm store ph.tasks (st, some 0)]

/-- C1: for every estimate document and every rate store state, the
recomputed cost of each phase is the sum of the recomputed costs of its
tasks, the grand total cost is the sum of the recomputed phase costs,
and the per-role subtotal costs also sum to the grand total cost. -/
theorem C1_sum_consistency (store : RateStore) (doc : EstimationResult) :
    (phasesWithDynamicCost store doc).map ProcPhase.estimatedCost
        = doc.phases.map (fun ph => jsum (ph.tasks.map (taskCost store)))
    ∧ totalCalculatedCost store doc
        = jsum ((phasesWithDynamicCost store doc).map ProcPhase.estimatedCost)
    ∧ jsum ((calculatedBreakdown store doc).map RoleAgg.subtotalCost)
        = totalCalculatedCost store doc := by
  refine ⟨phases_costs store doc.phases initAgg, ?_, ?_⟩
  · show (aggPhases store initAgg doc.phases).1.totalCost
      = jsum ((aggPhases store initAgg doc.phases).2.map ProcPhase.estimatedCost)
    rw [phases_totalCost store doc.phases initAgg,
      phases_costs store doc.phases initAgg]
    exact jadd_zero_left _
  · have hmap : (calculatedBreakdown store doc).map RoleAgg.subtotalCost
        = bmCosts (aggregate store doc).1.breakdownMap := by
      simp only [calculatedBreakdown, bmCosts, List.map_map]
      rfl
    rw [hmap]
    show jsum (bmCosts (aggPhases store initAgg doc.phases).1.breakdownMap)
      = (aggPhases store initAgg doc.phases).1.totalCost
    rw [phases_bm store doc.phases initAgg,
      phases_totalCost store doc.phases initAgg]
    rfl

/-- C2: the effective rate of every task is the Number conversion of the
store entry at the normalized role key when one is present and not the
cleared empty string, 0 when the entry is the cleared empty-string
sentinel, and the AI-supplied task rate when the key is absent; the task
cost is the task hours times this effective rate. -/
theorem C2_effective_rate (store : RateStore) (t : PhaseTask) :
    (lookupRate store (sanitizeRole t.assignedRole) = none →
      effectiveRate store t = some t.hourlyRate)
    ∧ (lookupRate store (sanitizeRole t.assignedRole) = some (RateVal.str []) →
      effectiveRate store t = some 0)
    ∧ (∀ v, lookupRate store (sanitizeRole t.assignedRole) = some v →
      v ≠ RateVal.str [] → effectiveRate store t = rvNumber v)
    ∧ taskCost store t = jmul (some t.hours) (effectiveRate store t) := by
  refine ⟨?_, ?_, ?_, rfl⟩
  · intro h; simp [effectiveRate, h]
  · intro h; simp [effectiveRate, h]
  · intro v hv hne; simp [effectiveRate, hv, hne]

theorem C2_effective_rate_witness :
    lookupRate [([97], RateVal.num 55)] (sanitizeRole taskA.assignedRole)
        = some (RateVal.num 55)
    ∧ effectiveRate [([97], RateVal.num 55)] taskA = rvNumber (RateVal.num 55)
    ∧ lookupRate [([97], RateVal.str [])] (sanitizeRole taskA.assignedRole)
        = some (RateVal.str [])
    ∧ effectiveRate [([97], RateVal.str [])] taskA = some 0
    ∧ lookupRate [] (sanitizeRole taskA.assignedRole) = none
    ∧ effectiveRate [] taskA = some taskA.hourlyRate :=
  ⟨by decide,
   (C2_effective_rate [([97], RateVal.num 55)] taskA).2.2.1 (RateVal.num 55)
     (by decide) (by decide),
   by decide,
   (C2_effective_rate [([97], RateVal.str [])] taskA).2.1 (by decide),
   by decide,
   (C2_effective_rate [] taskA).1 rfl⟩

theorem storeValid_storeSet (store : RateStore) (k : JsStr) (v : RateVal) :
    storeValid store = true → rateValAccepted v = true →
    storeValid (storeSet store k v) = true := by
  induction store with
  | nil => intro _ hv; simp [storeSet, storeValid, hv]
  | cons e rest ih =>
    intro hst hv
    obtain ⟨k2, w⟩ := e
    simp only [storeValid, List.all_cons, Bool.and_eq_true] at hst
    by_cases hk : k2 = k
    · simp only [storeSet, if_pos hk, storeValid, List.all_cons,
        Bool.and_eq_true]
      exact ⟨hv, hst.2⟩
    · simp only [storeSet, if_neg hk, storeValid, List.all_cons,
        Bool.and_eq_true]
      exact ⟨hst.1, ih hst.2 hv⟩

/-- C3: a rate edit stores the raw input under the sanitized role key
exactly when the input is the empty string or matches the non-negative
decimal pattern, leaves the store unchanged on any other input, and
never makes a valid store hold an unaccepted string.  The aggregation
consuming the store is a total function of the store by construction, so
no store content can make it raise. -/
theorem C3_rate_edit (store : RateStore) (role newRate : JsStr) :
    (newRate = [] ∨ ratePattern newRate = true →
      handleRateChange store role newRate
        = storeSet store (sanitizeRole role) (RateVal.str newRate))
    ∧ (¬(newRate = [] ∨ ratePattern newRate = true) →
      handleRateChange store role newRate = store)
    ∧ (storeValid store = true →
      storeValid (handleRateChange store role newRate) = true) := by
  refine ⟨?_, ?_, ?_⟩
  · intro h; simp [handleRateChange, h]
  · intro h; simp [handleRateChange, h]
  · intro hst
    by_cases h : newRate = [] ∨ ratePattern newRate = true
    · rw [show handleRateChange store role newRate
            = storeSet store (sanitizeRole role) (RateVal.str newRate) from by
          simp [handleRateChange, h]]
      refine storeValid_storeSet store (sanitizeRole role)
        (RateVal.str newRate) hst ?_
      rcases h with h | h
      · simp [rateValAccepted, h]
      · simp [rateValAccepted, h]
    · simp [handleRateChange, h, hst]

theorem C3_rate_edit_witness :
    (([53, 53, 46, 53] : JsStr) = [] ∨ ratePattern [53, 53, 46, 53] = true)
    ∧ handleRateChange [([97], RateVal.num 5)] [97] [53, 53, 46, 53]
        = storeSet [([97], RateVal.num 5)] (sanitizeRole [97])
            (RateVal.str [53, 53, 46, 53])
    ∧ ¬(([120] : JsStr) = [] ∨ ratePattern [120] = true)
    ∧ handleRateChange [([97], RateVal.num 5)] [97] [120]
        = [([97], RateVal.num 5)]
    ∧ storeValid [([97], RateVal.num 5)] = true
    ∧ storeValid (handleRateChange [([97], RateVal.num 5)] [97]
        [53, 53, 46, 53]) = true :=
  ⟨by decide,
   (C3_rate_edit [([97], RateVal.num 5)] [97] [53, 53, 46, 53]).1 (by decide),
   by decide,
   (C3_rate_edit [([97], RateVal.num 5)] [97] [120]).2.1 (by decide),
   by decide,
   (C3_rate_edit [([97], RateVal.num 5)] [97] [53, 53, 46, 53]).2.2
     (by decide)⟩

theorem isJsWs_toLowerCode (n : Nat) : isJsWs (toLowerCode n) = isJsWs n := by
  simp only [toLowerCode]
  split
  · simp only [isJsWs, decide_eq_decide]
    omega
  · rfl

theorem isJsWs_toUpperCode (n : Nat) : isJsWs (toUpperCode n) = isJsWs n := by
  simp only [toUpperCode]
  split
  · simp only [isJsWs, decide_eq_decide]
    omega
  · rfl

theorem toLowerCode_idem (n : Nat) :
    toLowerCode (toLowerCode n) = toLowerCode n := by
  by_cases h : 65 ≤ n ∧ n ≤ 90
  · simp only [toLowerCode, if_pos h]
    rw [if_neg (by omega)]
  · simp only [toLowerCode, if_neg h]

theorem toLowerCode_toUpperCode (n : Nat) :
    toLowerCode (toUpperCode n) = toLowerCode n := by
  by_cases h : 97 ≤ n ∧ n ≤ 122
  · simp only [toUpperCode, if_pos h, toLowerCode]
    rw [if_pos (by omega), if_neg (by omega)]
    omega
  · simp only [toUpperCode, if_neg h]

theorem collapseWsAux_no_ws (s : List Nat) :
    ∀ b, (collapseWsAux b s).all (fun c => !isJsWs c) = true := by
  induction s with
  | nil => intro b; rfl
  | cons c rest ih =>
    intro b
    simp only [collapseWsAux]
    by_cases hc : isJsWs c = true
    · rw [if_pos hc]
      cases b
      · rw [if_neg Bool.false_ne_true]
        simp only [List.all_cons, Bool.and_eq_true]
        exact ⟨by decide, ih true⟩
      · rw [if_pos rfl]
        exact ih true
    · rw [if_neg hc]
      simp [List.all_cons, ih, hc]

theorem collapseWsAux_id (s : List Nat) :
    s.all (fun c => !isJsWs c) = true → ∀ b, collapseWsAux b s = s := by
  induction s with
  | nil => intro _ b; rfl
  | cons c rest ih =>
    intro h b
    simp only [List.all_cons, Bool.and_eq_true] at h
    have hc : isJsWs c = false := by simpa using h.1
    simp only [collapseWsAux]
    rw [if_neg (by simp [hc]), ih h.2 false]

theorem all_no_ws_map_toLower (s : List Nat) :
    s.all (fun c => !isJsWs c) = true →
    (s.map toLowerCode).all (fun c => !isJsWs c) = true := by
  intro h
  rw [List.all_map]
  refine List.all_eq_true.mpr ?_
  intro c hc
  have hx := List.all_eq_true.mp h c hc
  simpa [Function.comp, isJsWs_toLowerCode] using hx

theorem map_toLower_idem (l : List Nat) :
    (l.map toLowerCode).map toLowerCode = l.map toLowerCode := by
  induction l with
  | nil => rfl
  | cons c l ih => simp [List.map_cons, ih, toLowerCode_idem]

theorem sanitizeRole_idem (s : JsStr) :
    sanitizeRole (sanitizeRole s) = sanitizeRole s := by
  show (collapseWsAux false ((collapseWsAux false s).map toLowerCode)).map
      toLowerCode = (collapseWsAux false s).map toLowerCode
  rw [collapseWsAux_id _ (all_no_ws_map_toLower _ (collapseWsAux_no_ws s false))
      false]
  exact map_toLower_idem _

theorem collapseWsAux_map_up (s : List Nat) :
    ∀ b, collapseWsAux b (s.map toUpperCode)
      = (collapseWsAux b s).map toUpperCode := by
  induction s with
  | nil => intro b; rfl
  | cons c rest ih =>
    intro b
    simp only [List.map_cons, collapseWsAux, isJsWs_toUpperCode]
    by_cases hc : isJsWs c = true
    · rw [if_pos hc, if_pos hc]
      cases b
      · rw [if_neg Bool.false_ne_true, if_neg Bool.false_ne_true, ih true]
        simp [List.map_cons, show toUpperCode 95 = 95 from rfl]
      · rw [if_pos rfl, if_pos rfl]
        exact ih true
    · rw [if_neg hc, if_neg hc]
      simp [List.map_cons, ih false]

theorem map_lower_upper (l : List Nat) :
    (l.map toUpperCode).map toLowerCode = l.map toLowerCode := by
  induction l with
  | nil => rfl
  | cons c l ih => simp [List.map_cons, ih, toLowerCode_toUpperCode]

theorem sanitizeRole_upper (s : JsStr) :
    sanitizeRole (s.map toUpperCode) = sanitizeRole s := by
  show (collapseWsAux false (s.map toUpperCode)).map toLowerCode
      = (collapseWsAux false s).map toLowerCode
  rw [collapseWsAux_map_up s false]
  exact map_lower_upper _

/-- C4 counterexample: normalization is not injective on distinct role
labels.  The two-character labels a-underscore-b and a-space-b are
distinct strings, yet both normalize to the key a-underscore-b. -/
theorem C4_counterexample :
    sanitizeRole [97, 95, 98] = sanitizeRole [97, 32, 98]
    ∧ ([97, 95, 98] : JsStr) ≠ [97, 32, 98] := by
  decide

/-- C4 amended: normalization is idempotent and identifies
differently-cased occurrences of the same label, and the five fixed role
labels normalize to pairwise distinct keys; full injectivity on all
distinct label strings fails (see the counterexample). -/
theorem C4_normalization :
    (∀ s : JsStr, sanitizeRole (sanitizeRole s) = sanitizeRole s)
    ∧ (∀ s : JsStr, sanitizeRole (s.map toUpperCode) = sanitizeRole s)
    ∧ List.Pairwise (fun a b => sanitizeRole a ≠ sanitizeRole b) FIXED_ROLES :=
  ⟨sanitizeRole_idem, sanitizeRole_upper, by decide⟩

theorem foldlMax_le (xs : List ℤ) : ∀ a : ℤ,
    a ≤ xs.foldl max a ∧ ∀ x ∈ xs, x ≤ xs.foldl max a := by
  induction xs with
  | nil => intro a; exact ⟨le_refl a, by simp⟩
  | cons x xs ih =>
    intro a
    rw [List.foldl_cons]
    refine ⟨le_trans (le_max_left a x) (ih (max a x)).1, ?_⟩
    intro y hy
    rcases List.mem_cons.mp hy with h | h
    · subst h
      exact le_trans (le_max_right a y) (ih (max a y)).1
    · exact (ih (max a x)).2 y h

theorem foldlMax_attained (xs : List ℤ) : ∀ a : ℤ,
    xs.foldl max a = a ∨ xs.foldl max a ∈ xs := by
  induction xs with
  | nil => intro a; exact Or.inl rfl
  | cons x xs ih =>
    intro a
    rw [List.foldl_cons]
    rcases ih (max a x) with h | h
    · rw [h]
      rcases max_cases a x with ⟨h1, _⟩ | ⟨h1, _⟩
      · exact Or.inl h1
      · exact Or.inr (by rw [h1]; exact List.mem_cons_self x xs)
    · exact Or.inr (List.mem_cons_of_mem x h)

/-- C5: the recomputed total hours are the plain sum of all task hours,
and the resolved duration in weeks is the largest roadmap end week when
the roadmap is non-empty, and the ceiling of total recomputed hours over
24 when the roadmap is empty. -/
theorem C5_duration (store : RateStore) (doc : EstimationResult) :
    totalCalculatedHours store doc
        = (doc.phases.map (fun ph => (ph.tasks.map PhaseTask.hours).sum)).sum
    ∧ (doc.roadmap = [] →
        calculatedWeeks store doc = ⌈totalCalculatedHours store doc / 24⌉)
    ∧ (doc.roadmap ≠ [] →
        (∀ r ∈ doc.roadmap, r.endWeek ≤ calculatedWeeks store doc)
        ∧ ∃ r ∈ doc.roadmap, calculatedWeeks store doc = r.endWeek) := by
  refine ⟨?_, ?_, ?_⟩
  · show (aggPhases store initAgg doc.phases).1.totalHours = _
    rw [phases_totalHours store doc.phases initAgg]
    show (0 : ℚ) + _ = _
    rw [zero_add]
  · intro h
    simp only [calculatedWeeks, h]
  · intro h
    cases hr : doc.roadmap with
    | nil => exact absurd hr h
    | cons r0 rest =>
      have hw : calculatedWeeks store doc
          = (rest.map RoadmapItem.endWeek).foldl max r0.endWeek := by
        simp only [calculatedWeeks, hr]
      constructor
      · intro r hrm
        rw [hw]
        rcases List.mem_cons.mp hrm with h1 | h1
        · subst h1
          exact (foldlMax_le _ _).1
        · exact (foldlMax_le _ _).2 _
            (List.mem_map_of_mem RoadmapItem.endWeek h1)
      · rw [hw]
        rcases foldlMax_attained (rest.map RoadmapItem.endWeek) r0.endWeek
            with h1 | h1
        · exact ⟨r0, List.mem_cons_self _ _, h1⟩
        · obtain ⟨r, hrm, he⟩ := List.mem_map.mp h1
          exact ⟨r, List.mem_cons_of_mem _ hrm, he.symm⟩

theorem C5_duration_witness :
    docNoRoadmap.roadmap = []
    ∧ calculatedWeeks [] docNoRoadmap
        = ⌈totalCalculatedHours [] docNoRoadmap / 24⌉
    ∧ docRoad.roadmap ≠ []
    ∧ ∃ r ∈ docRoad.roadmap, calculatedWeeks [] docRoad = r.endWeek :=
  ⟨rfl, (C5_duration [] docNoRoadmap).2.1 rfl, by decide,
   ((C5_duration [] docRoad).2.2 (by decide)).2⟩

/-- C6: a roadmap interval with start week below 1 is placed as starting
at week 1, one with end week below the (clamped) start week is placed as
ending at that start week, and every placed bar starts at week 1 or
later and spans at least one week. -/
theorem C6_clamp (r : RoadmapItem) :
    (r.startWeek < 1 → safeStart r = 1)
    ∧ (1 ≤ r.startWeek → safeStart r = r.startWeek)
    ∧ (r.endWeek < safeStart r → safeEnd r = safeStart r)
    ∧ (safeStart r ≤ r.endWeek → safeEnd r = r.endWeek)
    ∧ 1 ≤ safeStart r ∧ safeStart r ≤ safeEnd r
    ∧ 1 ≤ safeEnd r - safeStart r + 1 := by
  simp only [safeStart, safeEnd, max_def]
  refine ⟨?_, ?_, ?_, ?_, ?_, ?_, ?_⟩ <;> split_ifs <;> omega

theorem C6_clamp_witness :
    roadEarly.startWeek < 1 ∧ safeStart roadEarly = 1
    ∧ safeStart roadEarly ≤ roadEarly.endWeek
    ∧ safeEnd roadEarly = roadEarly.endWeek
    ∧ 1 ≤ roadBack.startWeek ∧ safeStart roadBack = roadBack.startWeek
    ∧ roadBack.endWeek < safeStart roadBack
    ∧ safeEnd roadBack = safeStart roadBack :=
  ⟨by decide, (C6_clamp roadEarly).1 (by decide), by decide,
   (C6_clamp roadEarly).2.2.2.1 (by decide), by decide,
   (C6_clamp roadBack).2.1 (by decide), by decide,
   (C6_clamp roadBack).2.2.1 (by decide)⟩

theorem flatTG_append (gs1 gs2 : List (JsStr × List ℤ)) :
    flatTG (gs1 ++ gs2) = flatTG gs1 ++ flatTG gs2 := by
  simp [flatTG]

theorem flatTG_closeTG (st : TGState) :
    flatTG (closeTG st)
      = flatTG st.1 ++ st.2.2.map (fun w => (st.2.1, w)) := by
  by_cases h : st.2.2 = []
  · simp [closeTG, h]
  · simp [closeTG, h, flatTG_append, flatTG]

theorem flatTG_step (label : ℤ → JsStr) (anchor : ℤ) (st : TGState) (w : ℤ) :
    flatTG (closeTG (tgStep label anchor st w))
      = flatTG (closeTG st) ++ [(label (anchor + (w - 1) * 7), w)] := by
  obtain ⟨gs, cur, cl⟩ := st
  rw [flatTG_closeTG, flatTG_closeTG]
  simp only [tgStep]
  by_cases hm : label (anchor + (w - 1) * 7) ≠ cur
  · rw [if_pos hm]
    by_cases he : cl = []
    · simp [he, flatTG_append, flatTG]
    · simp [he, flatTG_append, flatTG]
  · rw [if_neg hm]
    push_neg at hm
    simp [hm, List.map_append, List.append_assoc]

theorem flatTG_fold (label : ℤ → JsStr) (anchor : ℤ) (ws : List ℤ) :
    ∀ st : TGState,
    flatTG (closeTG (ws.foldl (tgStep label anchor) st))
      = flatTG (closeTG st)
        ++ ws.map (fun w => (label (anchor + (w - 1) * 7), w)) := by
  induction ws with
  | nil => intro st; simp
  | cons w ws ih =>
    intro st
    rw [List.foldl_cons, ih, flatTG_step, List.map_cons]
    simp [List.append_assoc]

/-- C7: for every resolved duration and anchor, the labeled flattening
of the timeline groups is exactly the week sequence 1..N each paired
with the label of the date anchor plus 7 times (week - 1) days, in week
order; in particular the concatenated week indices are exactly the
sequence 1..N with no gaps, duplicates or overlaps. -/
theorem C7_timeline (label : ℤ → JsStr) (anchor : ℤ) (n : ℤ) :
    flatTG (timelineGroups label anchor n)
        = (weekSeq n).map (fun w => (label (anchor + (w - 1) * 7), w))
    ∧ (timelineGroups label anchor n).flatMap (fun g => g.2) = weekSeq n := by
  have h1 : flatTG (timelineGroups label anchor n)
      = (weekSeq n).map (fun w => (label (anchor + (w - 1) * 7), w)) := by
    show flatTG (closeTG ((weekSeq n).foldl (tgStep label anchor) ([], [], [])))
      = (weekSeq n).map (fun w => (label (anchor + (w - 1) * 7), w))
    rw [flatTG_fold label anchor (weekSeq n) ([], [], [])]
    simp [flatTG, closeTG]
  refine ⟨h1, ?_⟩
  have h2 := congrArg (List.map Prod.snd) h1
  have h3 : (flatTG (timelineGroups label anchor n)).map Prod.snd
      = (timelineGroups label anchor n).flatMap (fun g => g.2) := by
    simp [flatTG, List.map_flatMap, List.map_map, Function.comp]
  rw [h3] at h2
  rw [h2, List.map_map]
  rw [show (Prod.snd ∘ fun w : ℤ => (label (anchor + (w - 1) * 7), w)) = id
      from rfl]
  exact List.map_id _

/-- C8: whenever the analyze service call fails (missing API key,
missing or empty response text, or unparseable response), the transition
moves the app to the error state and leaves the stored result, if any,
exactly as it was; the outcome of a failing call is always one of the
three error kinds. -/
theorem C8_failure_keeps_result (m : AppModel) (hasKey : Bool)
    (resp : Option JsStr) (parse : JsStr → Option EstimationResult)
    (rn rd : JsStr)
    (hfail : ∀ d, analyzePRD hasKey resp parse rn rd ≠ AnalyzeOutcome.ok d) :
    (handleAnalyze m (analyzePRD hasKey resp parse rn rd)).result = m.result
    ∧ (handleAnalyze m (analyzePRD hasKey resp parse rn rd)).appState
        = AppState.error
    ∧ ∃ e, analyzePRD hasKey resp parse rn rd = AnalyzeOutcome.err e := by
  cases h : analyzePRD hasKey resp parse rn rd with
  | ok d => exact absurd h (hfail d)
  | err e => exact ⟨rfl, rfl, e, rfl⟩

theorem C8_failure_keeps_result_witness :
    (∀ d, analyzePRD false none (fun _ => none) [] [] ≠ AnalyzeOutcome.ok d)
    ∧ (handleAnalyze appWithResult
        (analyzePRD false none (fun _ => none) [] [])).result
        = appWithResult.result
    ∧ (handleAnalyze appWithResult
        (analyzePRD false none (fun _ => none) [] [])).appState
        = AppState.error := by
  have hfail : ∀ d, analyzePRD false none (fun _ => none) [] []
      ≠ AnalyzeOutcome.ok d := by
    intro d h
    simp [analyzePRD] at h
  have h := C8_failure_keeps_result appWithResult false none
    (fun _ => none) [] [] hfail
  exact ⟨hfail, h.1, h.2.1⟩

theorem lookup_storeSet (store : RateStore) (k : JsStr) (v : RateVal) :
    ∀ k2, lookupRate (storeSet store k v) k2
      = if k = k2 then some v else lookupRate store k2 := by
  induction store with
  | nil =>
    intro k2
    simp only [storeSet, lookupRate]
  | cons e rest ih =>
    intro k2
    obtain ⟨k1, w⟩ := e
    by_cases h1 : k1 = k
    · subst h1
      simp only [storeSet, if_pos rfl, lookupRate]
      by_cases h2 : k1 = k2 <;> simp [h2]
    · simp only [storeSet, if_neg h1, lookupRate, ih]
      by_cases h2 : k1 = k2
      · subst h2
        have h3 : ¬(k = k1) := fun h => h1 h.symm
        simp [h3]
      · simp [h2]

theorem lookup_foldCB_none (items : List CostBreakdownItem) :
    ∀ st k, lookupRate (items.foldl initStepCB st) k = none
      ↔ lookupRate st k = none
        ∧ k ∉ items.map (fun i => sanitizeRole i.role) := by
  induction items with
  | nil => intro st k; simp
  | cons i items ih =>
    intro st k
    rw [List.foldl_cons, ih]
    simp only [initStepCB, lookup_storeSet, List.map_cons, List.mem_cons]
    by_cases h : sanitizeRole i.role = k
    · simp [h]
    · have h2 : ¬(k = sanitizeRole i.role) := fun hh => h hh.symm
      simp [h, h2]

theorem lookup_foldTask_none (ts : List PhaseTask) :
    ∀ st k, lookupRate (ts.foldl initStepTask st) k = none
      ↔ lookupRate st k = none
        ∧ k ∉ ts.map (fun t => sanitizeRole t.assignedRole) := by
  induction ts with
  | nil => intro st k; simp
  | cons t ts ih =>
    intro st k
    rw [List.foldl_cons, ih]
    simp only [List.map_cons, List.mem_cons]
    by_cases hc : rateFalsy (lookupRate st (sanitizeRole t.assignedRole)) = true
    · rw [show initStepTask st t
          = storeSet st (sanitizeRole t.assignedRole)
              (RateVal.num t.hourlyRate) from by simp [initStepTask, hc]]
      rw [lookup_storeSet]
      by_cases h : sanitizeRole t.assignedRole = k
      · simp [h]
      · have h2 : ¬(k = sanitizeRole t.assignedRole) := fun hh => h hh.symm
        simp [h, h2]
    · rw [show initStepTask st t = st from by simp [initStepTask, hc]]
      by_cases h : k = sanitizeRole t.assignedRole
      · have h3 : lookupRate st (sanitizeRole t.assignedRole) ≠ none := by
          intro hn
          rw [hn] at hc
          exact hc rfl
        rw [h]
        simp [h3]
      · simp [h]

theorem lookup_foldPhase_none (phs : List PhaseEstimate) :
    ∀ st k, lookupRate (phs.foldl initStepPhase st) k = none
      ↔ lookupRate st k = none
        ∧ k ∉ phs.flatMap
            (fun ph => ph.tasks.map (fun t => sanitizeRole t.assignedRole)) := by
  induction phs with
  | nil => intro st k; simp
  | cons ph phs ih =>
    intro st k
    rw [List.foldl_cons, ih]
    rw [show initStepPhase st ph = ph.tasks.foldl initStepTask st from rfl]
    rw [lookup_foldTask_none ph.tasks st k]
    simp [List.mem_append, not_or, and_assoc]

theorem storeNonFalsy_storeSet (st : RateStore) (k : JsStr) (v : RateVal)
    (hst : StoreNonFalsy st) (hv : rateFalsy (some v) = false) :
    StoreNonFalsy (storeSet st k v) := by
  intro k2 w hw
  rw [lookup_storeSet] at hw
  by_cases h : k = k2
  · rw [if_pos h] at hw
    have h2 := Option.some.inj hw
    subst h2
    exact hv
  · rw [if_neg h] at hw
    exact hst k2 w hw

theorem foldCB_nonFalsy (items : List CostBreakdownItem) :
    ∀ st, StoreNonFalsy st → (∀ i ∈ items, i.hourlyRate ≠ 0) →
    StoreNonFalsy (items.foldl initStepCB st) := by
  induction items with
  | nil => intro st h _; exact h
  | cons i items ih =>
    intro st hst hnz
    rw [List.foldl_cons]
    refine ih _ ?_ (fun j hj => hnz j (List.mem_cons_of_mem i hj))
    refine storeNonFalsy_storeSet st _ _ hst ?_
    have h0 := hnz i (List.mem_cons_self i items)
    simp [rateFalsy, h0]

theorem foldTask_eq (ts : List PhaseTask) :
    ∀ st, StoreNonFalsy st → (∀ t ∈ ts, t.hourlyRate ≠ 0) →
    ts.foldl initStepTask st = ts.foldl initStepTaskClaimed st
    ∧ StoreNonFalsy (ts.foldl initStepTask st) := by
  induction ts with
  | nil => intro st h _; exact ⟨rfl, h⟩
  | cons t ts ih =>
    intro st hst hnz
    rw [List.foldl_cons, List.foldl_cons]
    have hstep : initStepTask st t = initStepTaskClaimed st t
        ∧ StoreNonFalsy (initStepTask st t) := by
      cases hl : lookupRate st (sanitizeRole t.assignedRole) with
      | none =>
        constructor
        · simp [initStepTask, initStepTaskClaimed, hl, rateFalsy]
        · rw [show initStepTask st t
              = storeSet st (sanitizeRole t.assignedRole)
                  (RateVal.num t.hourlyRate)
              from by simp [initStepTask, hl, rateFalsy]]
          refine storeNonFalsy_storeSet st _ _ hst ?_
          have h0 := hnz t (List.mem_cons_self t ts)
          simp [rateFalsy, h0]
      | some v =>
        have hv := hst _ v hl
        constructor
        · simp [initStepTask, initStepTaskClaimed, hl, hv]
        · rw [show initStepTask st t = st from by simp [initStepTask, hl, hv]]
          exact hst
    rw [← hstep.1]
    exact ih (initStepTask st t) hstep.2
      (fun u hu => hnz u (List.mem_cons_of_mem t hu))

theorem foldPhase_eq (phs : List PhaseEstimate) :
    ∀ st, StoreNonFalsy st →
    (∀ ph ∈ phs, ∀ t ∈ ph.tasks, t.hourlyRate ≠ 0) →
    phs.foldl initStepPhase st = phs.foldl initStepPhaseClaimed st
    ∧ StoreNonFalsy (phs.foldl initStepPhase st) := by
  induction phs with
  | nil => intro st h _; exact ⟨rfl, h⟩
  | cons ph phs ih =>
    intro st hst hnz
    rw [List.foldl_cons, List.foldl_cons]
    have hstep := foldTask_eq ph.tasks st hst
      (fun t ht => hnz ph (List.mem_cons_self ph phs) t ht)
    rw [show initStepPhaseClaimed st ph
        = ph.tasks.foldl initStepTaskClaimed st from rfl, ← hstep.1]
    exact ih (ph.tasks.foldl initStepTask st) hstep.2
      (fun p hp t ht => hnz p (List.mem_cons_of_mem ph hp) t ht)

/-- C9 counterexample: the initialization backfill overwrites an entry
that is present with rate 0, because the source guards with JS
falsiness, not with absence.  On a document whose cost breakdown lists
role a at rate 0 and whose single task on role a carries AI rate 5, the
source initialization ends with rate 5 while the claimed
present-key-wins initialization ends with rate 0. -/
theorem C9_counterexample :
    initialRates docZeroRate ≠ initialRatesClaimed docZeroRate
    ∧ lookupRate (initialRates docZeroRate) [97] = some (RateVal.num 5)
    ∧ lookupRate (initialRatesClaimed docZeroRate) [97]
        = some (RateVal.num 0) := by
  refine ⟨?_, by decide, by decide⟩
  decide

/-- C9 amended: when every breakdown rate and every task rate is
non-zero, the source initialization agrees with the claimed description
(each breakdown entry contributes its rate under the normalized role
key, then each task whose key is not already present contributes its AI
rate); and for every document, the initialized store binds exactly the
normalized breakdown role keys and task role keys, and nothing else. -/
theorem C9_init_rates (doc : EstimationResult)
    (hcb : ∀ i ∈ doc.costBreakdown, i.hourlyRate ≠ 0)
    (ht : ∀ ph ∈ doc.phases, ∀ t ∈ ph.tasks, t.hourlyRate ≠ 0) :
    initialRates doc = initialRatesClaimed doc
    ∧ ∀ k, (∃ v, lookupRate (initialRates doc) k = some v)
        ↔ (k ∈ doc.costBreakdown.map (fun i => sanitizeRole i.role)
           ∨ k ∈ doc.phases.flatMap
               (fun ph => ph.tasks.map (fun t => sanitizeRole t.assignedRole))) := by
  constructor
  · have hbase : StoreNonFalsy (doc.costBreakdown.foldl initStepCB []) :=
      foldCB_nonFalsy doc.costBreakdown []
        (fun k v h => by simp [lookupRate] at h) hcb
    exact (foldPhase_eq doc.phases _ hbase ht).1
  · intro k
    have hrw : initialRates doc
        = doc.phases.foldl initStepPhase
            (doc.costBreakdown.foldl initStepCB []) := rfl
    have hn := lookup_foldPhase_none doc.phases
      (doc.costBreakdown.foldl initStepCB []) k
    rw [lookup_foldCB_none doc.costBreakdown [] k] at hn
    rw [hrw]
    constructor
    · rintro ⟨v, hv⟩
      by_contra hno
      push_neg at hno
      rw [hn.mpr ⟨⟨rfl, hno.1⟩, hno.2⟩] at hv
      cases hv
    · intro hmem
      cases he : lookupRate (doc.phases.foldl initStepPhase
          (doc.costBreakdown.foldl initStepCB [])) k with
      | some v => exact ⟨v, rfl⟩
      | none =>
        obtain ⟨⟨-, h1⟩, h2⟩ := hn.mp he
        rcases hmem with hm | hm
        · exact absurd hm h1
        · exact absurd hm h2

theorem C9_init_rates_witness :
    (∀ i ∈ docNonZero.costBreakdown, i.hourlyRate ≠ 0)
    ∧ (∀ ph ∈ docNonZero.phases, ∀ t ∈ ph.tasks, t.hourlyRate ≠ 0)
    ∧ initialRates docNonZero = initialRatesClaimed docNonZero := by
  have h1 : ∀ i ∈ docNonZero.costBreakdown, i.hourlyRate ≠ 0 := by decide
  have h2 : ∀ ph ∈ docNonZero.phases, ∀ t ∈ ph.tasks, t.hourlyRate ≠ 0 := by
    decide
  exact ⟨h1, h2, (C9_init_rates docNonZero h1 h2).1⟩

theorem breakdownRate_eq (store : RateStore) (role : JsStr) :
    breakdownRate store role
      = ((lookupRate store (sanitizeRole role)).bind rvNumber).getD 0 := by
  unfold breakdownRate
  cases lookupRate store (sanitizeRole role) with
  | none => rfl
  | some v =>
    cases h : rvNumber v with
    | none => simp [h]
    | some q =>
      simp only [h, Option.some_bind, Option.getD_some]
      by_cases hq : q = 0 <;> simp [hq]

theorem calculatedBreakdown_docC10 :
    calculatedBreakdown [] docC10 = [rowC10] := by
  simp [calculatedBreakdown, aggregate, aggPhases, aggPhase, aggTask,
    taskCost, effectiveRate, lookupRate, sanitizeRole, collapseWs,
    collapseWsAux, isJsWs, toLowerCode, docC10, docBase, jmul, jadd,
    initAgg, bmAdd, breakdownRate, rvNumber, rowC10]
  norm_num

/-- C10: every computed breakdown row reports as its hourly rate the
Number conversion of the store entry at the normalized row role key when
that conversion is a non-zero number, and 0 otherwise — in particular 0
when the key is unset and the task costs fell back to the AI task
rates — so the subtotal cost need not equal total hours times the
reported rate, as the concrete document with an unset store shows. -/
theorem C10_breakdown_rate :
    (∀ (store : RateStore) (doc : EstimationResult) (row : RoleAgg),
      row ∈ calculatedBreakdown store doc →
      row.hourlyRate
        = ((lookupRate store (sanitizeRole row.role)).bind rvNumber).getD 0)
    ∧ calculatedBreakdown [] docC10 = [rowC10]
    ∧ ∀ row ∈ calculatedBreakdown [] docC10,
        row.subtotalCost ≠ some (row.totalHours * row.hourlyRate) := by
  refine ⟨?_, calculatedBreakdown_docC10, ?_⟩
  · intro store doc row hrow
    simp only [calculatedBreakdown, List.mem_map] at hrow
    obtain ⟨e, he, heq⟩ := hrow
    rw [← heq]
    exact breakdownRate_eq store e.2.role
  · intro row hrow
    rw [calculatedBreakdown_docC10] at hrow
    simp only [List.mem_singleton] at hrow
    subst hrow
    norm_num [rowC10]

theorem C10_breakdown_rate_witness :
    rowC10 ∈ calculatedBreakdown [] docC10
    ∧ rowC10.hourlyRate
        = ((lookupRate [] (sanitizeRole rowC10.role)).bind rvNumber).getD 0 := by
  have hmem : rowC10 ∈ calculatedBreakdown [] docC10 := by
    rw [calculatedBreakdown_docC10]
    exact List.mem_singleton.mpr rfl
  exact ⟨hmem, C10_breakdown_rate.1 [] docC10 rowC10 hmem⟩
